import Mathlib

/-!
Verification of the query-safety gate and batch streaming engine of the
vertica-mcp server (a TypeScript MCP adapter for Vertica databases).

The development shallowly embeds the relevant source functions:

* `VerticaService.validateReadonlyQuery` (src/services/vertica-service.ts):
  the policy gate that permits a SQL string iff its trimmed, upper-cased
  form starts with one of the allow-listed keywords.
* `VerticaService.streamQuery`: the LIMIT/OFFSET pagination loop that
  yields batches until exhaustion or a row cap.
* `StreamQueryTool.execute` (src/tools/stream-query.ts): the consuming
  adapter that accumulates batches with a safety break.
* `VerticaService.executeQuery` / `streamQuery` entry sequencing
  (validate, then connect, then query), modelled as an effect trace.

JavaScript string operations (`trim`, `toUpperCase`, `startsWith`) are
embedded as executable functions on `List Char`, so that every definition
evaluates inside the kernel; the embedding agrees with JavaScript on the
ASCII inputs all claims are about.

The underlying database result set is modelled as a fixed finite list of
rows: the page obtained for `LIMIT b OFFSET o` is `(rows.drop o).take b`,
which the recursion realizes by dropping `batchSize` rows per iteration.
-/

namespace VerticaMCP

/-! ## Embedding of the JavaScript string operations -/

/-- Whitespace recognized by JavaScript `String.prototype.trim` (the ASCII
part, which is all the source ever feeds it). -/
def isJsSpace (c : Char) : Bool :=
  c == ' ' || c == '\t' || c == '\n' || c == '\r' || c == '\x0b' || c == '\x0c'

/-- JavaScript `trim`: drop whitespace from both ends. -/
def trimChars (l : List Char) : List Char :=
  ((l.dropWhile isJsSpace).reverse.dropWhile isJsSpace).reverse

/-- JavaScript `toUpperCase` on an ASCII character. -/
def upperChar (c : Char) : Char :=
  if 'a' ≤ c && c ≤ 'z' then Char.ofNat (c.toNat - 32) else c

/-- Executable prefix test on character lists (JavaScript `startsWith`). -/
def isPrefixL : List Char → List Char → Bool
  | [], _ => true
  | _ :: _, [] => false
  | a :: as, b :: bs => a == b && isPrefixL as bs

/-- The normalization the gate performs: `sql.trim().toUpperCase()`. -/
def jsNormalize (s : String) : List Char :=
  (trimChars s.data).map upperChar

/-! ## Policy Gate (src/constants/index.ts and vertica-service.ts) -/

/-- Allow-list from `READONLY_QUERY_PREFIXES` in src/constants/index.ts. -/
def READONLY_QUERY_PREFIXES : List String :=
  ["SELECT", "SHOW", "DESCRIBE", "EXPLAIN", "WITH"]

/-- Embedding of `VerticaService.validateReadonlyQuery` as a pure permit
predicate: `true` means the statement passes, `false` means the method
throws. Source: `const trimmedSql = sql.trim().toUpperCase();` followed by
`this.readonlyQueryPrefixes.some((prefix) => trimmedSql.startsWith(prefix))`. -/
def validateReadonlyQuery (sql : String) : Bool :=
  READONLY_QUERY_PREFIXES.any (fun p => isPrefixL p.data (jsNormalize sql))

/-- The error text thrown by the in-tree `validateReadonlyQuery`:
`Only readonly queries are allowed. Query must start with: <allow-list>`. -/
def readonlyErrorText : String :=
  "Only readonly queries are allowed. Query must start with: " ++
    String.intercalate ", " READONLY_QUERY_PREFIXES

/-- Bridge lemma: the executable prefix check agrees with the mathematical
prefix relation on lists. -/
theorem isPrefixL_iff (a b : List Char) : isPrefixL a b = true ↔ a <+: b := by
  induction a generalizing b with
  | nil => simp [isPrefixL]
  | cons x xs ih =>
    cases b with
    | nil => simp [isPrefixL]
    | cons y ys =>
      simp only [isPrefixL, Bool.and_eq_true, beq_iff_eq, ih, List.cons_prefix_cons]

/-- C1: under readonly mode the Policy Gate (`validateReadonlyQuery`)
permits a SQL string iff its trimmed, upper-cased form starts with one of
SELECT, SHOW, DESCRIBE, EXPLAIN, WITH; every other string (the empty
string included) is rejected. Case and outer whitespace insensitivity are
inherent in the normalized form `jsNormalize`. -/
theorem validateReadonlyQuery_iff_allowlist (sql : String) :
    validateReadonlyQuery sql = true ↔
      ("SELECT".data <+: jsNormalize sql ∨ "SHOW".data <+: jsNormalize sql ∨
        "DESCRIBE".data <+: jsNormalize sql ∨ "EXPLAIN".data <+: jsNormalize sql ∨
        "WITH".data <+: jsNormalize sql) := by
  simp only [validateReadonlyQuery, READONLY_QUERY_PREFIXES, List.any_cons,
    List.any_nil, Bool.or_eq_true, Bool.or_false, isPrefixL_iff]

/-! ## Readonly-mode aware gate (modelled) -/

/-- Executable substring test: `strContains s t` holds iff `t` occurs
contiguously in `s`. -/
def strContains (s t : String) : Bool :=
  (List.range (s.data.length + 1)).any (fun i => isPrefixL t.data (s.data.drop i))

/-- Modelled from the spec: the rejection error of the Policy Gate. The
readonly-mode-aware `vertica-service.ts` (version 1.3.0) is not among the
provided sources; only its tests, plan document, README and callers are.
Per spec section 4.1/7 the error carries the attempted query text and the
allow-list plus guidance that readonly mode can be disabled; the message
text follows the assertions in tests/services/vertica-service.test.ts. -/
structure ReadonlyViolation where
  query : String
  allowList : List String
  message : String
deriving DecidableEq

/-- Modelled from the spec: message of the `ReadonlyViolation` error, per
the test assertions (substring checks for
`Only readonly queries are allowed (readonly mode is enabled)` and
`To allow all queries, set VERTICA_READONLY_MODE=false`). -/
def readonlyViolationMessage : String :=
  "Only readonly queries are allowed (readonly mode is enabled). " ++
    "Query must start with: SELECT, SHOW, DESCRIBE, EXPLAIN, WITH. " ++
    "To allow all queries, set VERTICA_READONLY_MODE=false"

/-- Modelled from the spec: constructor of the rejection error. -/
def mkReadonlyViolation (sql : String) : ReadonlyViolation :=
  ⟨sql, READONLY_QUERY_PREFIXES, readonlyViolationMessage⟩

/-- Modelled from the spec: the readonly-mode-aware Policy Gate of the
current `vertica-service.ts`, which is missing from the provided sources.
Spec section 4.1: if `readonlyMode` is false, always permit; otherwise run
the prefix validation (the in-tree `validateReadonlyQuery` logic). -/
def validateQuery (readonlyMode : Bool) (sql : String) : Except ReadonlyViolation Unit :=
  if !readonlyMode then Except.ok ()
  else if validateReadonlyQuery sql then Except.ok ()
  else Except.error (mkReadonlyViolation sql)

/-! ## Batch Streaming Engine (`VerticaService.streamQuery`) -/

/-- Stream options from src/types/vertica.ts (`batchSize`, optional
`maxRows`). -/
structure StreamQueryOptions where
  batchSize : Nat
  maxRows : Option Nat

/-- One yielded batch, from `StreamQueryResult` in src/types/vertica.ts.
The `fields` descriptor list is passed through from the driver result
unchanged and is omitted here. -/
structure StreamQueryResult (α : Type) where
  batch : List α
  batchNumber : Nat
  totalBatches : Nat
  hasMore : Bool
deriving DecidableEq

/-- JavaScript truthiness of `maxRows` in the source: the guards
`!maxRows` and `maxRows && ...` treat an absent cap and a zero cap alike
(the tool schema enforces `maxRows ≥ 1`, so zero never reaches the
engine). -/
def capActive (maxRows : Option Nat) : Bool :=
  match maxRows with
  | none => false
  | some m => m != 0

/-- The `hasMore` computation of `streamQuery`:
`result.rows.length === batchSize && (!maxRows || totalFetched < maxRows)`. -/
def hasMoreCalc (pageLen batchSize : Nat) (maxRows : Option Nat) (tf : Nat) : Bool :=
  (pageLen == batchSize) && (!(capActive maxRows) || decide (tf < maxRows.getD 0))

/-- The `while (true)` loop body of `VerticaService.streamQuery`. The
remaining rows stand for the suffix of the result set at the current
`offset`; each iteration reads the page `rows.take batchSize`
(`LIMIT batchSize OFFSET offset`), breaks on an empty page, otherwise
increments `batchNumber`, accumulates `totalFetched`, computes `hasMore`,
yields the batch, and continues (advancing the offset, i.e. dropping the
page) unless `!hasMore || (maxRows && totalFetched >= maxRows)`. The
second component counts the pages fetched (loop iterations). -/
def streamRun {α : Type} (rows : List α) (batchSize : Nat) (maxRows : Option Nat)
    (batchNumber totalFetched : Nat) : List (StreamQueryResult α) × Nat :=
  if h1 : (rows.take batchSize).length = 0 then
    ([], 1)
  else
    if hasMoreCalc (rows.take batchSize).length batchSize maxRows
        (totalFetched + (rows.take batchSize).length) = true ∧
        ¬(capActive maxRows = true ∧
          maxRows.getD 0 ≤ totalFetched + (rows.take batchSize).length) then
      let rest := streamRun (rows.drop batchSize) batchSize maxRows (batchNumber + 1)
        (totalFetched + (rows.take batchSize).length)
      (⟨rows.take batchSize, batchNumber + 1, batchNumber + 2, true⟩ :: rest.1, rest.2 + 1)
    else
      ([⟨rows.take batchSize, batchNumber + 1,
          if hasMoreCalc (rows.take batchSize).length batchSize maxRows
              (totalFetched + (rows.take batchSize).length) = true
          then batchNumber + 2 else batchNumber + 1,
          hasMoreCalc (rows.take batchSize).length batchSize maxRows
            (totalFetched + (rows.take batchSize).length)⟩], 1)
termination_by rows.length
decreasing_by
  simp only [List.length_drop]
  have hmin : (rows.take batchSize).length = min batchSize rows.length := List.length_take _ _
  rw [hmin] at h1
  omega

/-- Entry point `streamQuery` over a result set of `rows`, with counters
`offset = 0`, `batchNumber = 0`, `totalFetched = 0`. -/
def streamQuery {α : Type} (rows : List α) (options : StreamQueryOptions) :
    List (StreamQueryResult α) × Nat :=
  streamRun rows options.batchSize options.maxRows 0 0

/-- The sequence of batches yielded by one `streamQuery` invocation. -/
def streamQueryBatches {α : Type} (rows : List α) (batchSize : Nat)
    (maxRows : Option Nat) : List (StreamQueryResult α) :=
  (streamQuery rows ⟨batchSize, maxRows⟩).1

/-- The number of pages fetched (loop iterations) by one `streamQuery`
invocation. -/
def streamQueryPages {α : Type} (rows : List α) (batchSize : Nat)
    (maxRows : Option Nat) : Nat :=
  (streamQuery rows ⟨batchSize, maxRows⟩).2

/-! ## Consuming adapter (`StreamQueryTool.execute`) -/

/-- The accumulation loop of `StreamQueryTool.execute`: push each yielded
batch, then `if (batches.length > 100) break;`. The reshaping of the
pushed record (`batchNumber`, `rowCount`, `rows`, `hasMore`, mapped
`fields`) does not affect the count and is left abstract. -/
def collectAux {β : Type} (acc : List β) : List β → List β
  | [] => acc
  | b :: rest =>
    if (acc ++ [b]).length > 100 then acc ++ [b]
    else collectAux (acc ++ [b]) rest

/-- Batches accumulated by the `stream_query` adapter over the engine's
yielded sequence. -/
def collectBatches {β : Type} (stream : List β) : List β :=
  collectAux [] stream

/-! ## Entry-point sequencing (`executeQuery` / `streamQuery`) -/

/-- Database side effects performed by a service entry point, in order. -/
inductive DbOp where
  | connect : DbOp
  | query : String → DbOp
deriving DecidableEq

/-- The derived page statement of `streamQuery`:
`${sql} LIMIT ${batchSize} OFFSET ${offset}`. -/
def limitedSql (sql : String) (batchSize offset : Nat) : String :=
  sql ++ " LIMIT " ++ toString batchSize ++ " OFFSET " ++ toString offset

/-- Effect trace of `VerticaService.executeQuery`: the source validates
first (`this.validateReadonlyQuery(sql)` throws), then awaits `connect`,
then runs the query. A rejected call therefore produces no effect. -/
def executeQueryOps (sql : String) : List DbOp × Option String :=
  if validateReadonlyQuery sql then ([DbOp.connect, DbOp.query sql], none)
  else ([], some readonlyErrorText)

/-- Effect trace of `VerticaService.streamQuery` over a result set
`rows`: validation precedes `connect`, which precedes the paged queries
at offsets `0, batchSize, 2·batchSize, …` (one per fetched page). -/
def streamQueryOps {α : Type} (sql : String) (rows : List α) (batchSize : Nat)
    (maxRows : Option Nat) : List DbOp × Option String :=
  if validateReadonlyQuery sql then
    (DbOp.connect ::
      (List.range (streamQueryPages rows batchSize maxRows)).map
        (fun i => DbOp.query (limitedSql sql batchSize (i * batchSize))), none)
  else ([], some readonlyErrorText)

/-- Modelled from the spec: effect trace of `executeQuery` in the
readonly-mode-aware service (missing from the provided sources), which
routes validation through the conditional gate `validateQuery`. -/
def executeQueryOpsM (readonlyMode : Bool) (sql : String) :
    List DbOp × Option ReadonlyViolation :=
  match validateQuery readonlyMode sql with
  | Except.error e => ([], some e)
  | Except.ok _ => ([DbOp.connect, DbOp.query sql], none)

/-- Modelled from the spec: effect trace of `streamQuery` in the
readonly-mode-aware service (missing from the provided sources). -/
def streamQueryOpsM {α : Type} (readonlyMode : Bool) (sql : String) (rows : List α)
    (batchSize : Nat) (maxRows : Option Nat) : List DbOp × Option ReadonlyViolation :=
  match validateQuery readonlyMode sql with
  | Except.error e => ([], some e)
  | Except.ok _ =>
    (DbOp.connect ::
      (List.range (streamQueryPages rows batchSize maxRows)).map
        (fun i => DbOp.query (limitedSql sql batchSize (i * batchSize))), none)

/-! ## Gate theorems -/

/-- C2: with `readonlyMode = false` the Policy Gate permits every SQL
string unconditionally, and neither `executeQuery` nor `streamQuery`
raises a readonly-violation error for any statement (the universally
quantified `sql` covers mutating statements such as `DROP TABLE x`). -/
theorem validateQuery_false_permits_all (sql : String) (rows : List Unit)
    (batchSize : Nat) (maxRows : Option Nat) :
    validateQuery false sql = Except.ok () ∧
      (executeQueryOpsM false sql).2 = none ∧
      (streamQueryOpsM false sql rows batchSize maxRows).2 = none := by
  refine ⟨rfl, ?_, ?_⟩ <;> simp [executeQueryOpsM, streamQueryOpsM, validateQuery]

set_option maxRecDepth 16384 in
/-- C7: the rejection error raised for `DELETE FROM t` under readonly mode
carries the attempted query text and the allow-list, its message contains
the substring `readonly`, lists all five allow-list keywords, and includes
the guidance that readonly mode can be disabled via configuration. -/
theorem readonlyViolation_error_contents :
    validateQuery true "DELETE FROM t" =
        Except.error (mkReadonlyViolation "DELETE FROM t") ∧
      (mkReadonlyViolation "DELETE FROM t").query = "DELETE FROM t" ∧
      (mkReadonlyViolation "DELETE FROM t").allowList =
        ["SELECT", "SHOW", "DESCRIBE", "EXPLAIN", "WITH"] ∧
      strContains (mkReadonlyViolation "DELETE FROM t").message "readonly" = true ∧
      ((mkReadonlyViolation "DELETE FROM t").allowList.all
        (fun k => strContains (mkReadonlyViolation "DELETE FROM t").message k)) = true ∧
      strContains (mkReadonlyViolation "DELETE FROM t").message
        "VERTICA_READONLY_MODE=false" = true := by
  refine ⟨rfl, rfl, rfl, by decide, by decide, by decide⟩

/-- C10: a SQL string rejected by the Policy Gate makes both entry points
fail with the rejection error and an empty effect trace: no `connect` and
no query execution happens, so the service is left unconnected. -/
theorem rejected_query_no_side_effects (sql : String) (rows : List Unit)
    (batchSize : Nat) (maxRows : Option Nat)
    (h : validateReadonlyQuery sql = false) :
    executeQueryOps sql = ([], some readonlyErrorText) ∧
      streamQueryOps sql rows batchSize maxRows = ([], some readonlyErrorText) := by
  constructor <;> simp [executeQueryOps, streamQueryOps, h]

/-- Witness for C10 at the concrete rejected statement `DROP TABLE x`. -/
theorem rejected_query_no_side_effects_witness :
    validateReadonlyQuery "DROP TABLE x" = false ∧
      (executeQueryOps "DROP TABLE x" = ([], some readonlyErrorText) ∧
        streamQueryOps "DROP TABLE x" ([] : List Unit) 1000 none =
          ([], some readonlyErrorText)) :=
  ⟨by decide, rejected_query_no_side_effects "DROP TABLE x" [] 1000 none (by decide)⟩

/-! ## Adapter safety-break theorems -/

/-- Helper: the adapter loop never grows the accumulator past 101 once it
starts at 100 or fewer collected batches. -/
theorem collectAux_length_le {β : Type} (s : List β) :
    ∀ acc : List β, acc.length ≤ 100 → (collectAux acc s).length ≤ 101 := by
  induction s with
  | nil =>
    intro acc h
    simpa [collectAux] using Nat.le_succ_of_le h
  | cons b rest ih =>
    intro acc h
    by_cases hc : acc.length + 1 > 100
    · simp only [collectAux, List.length_append, List.length_singleton, if_pos hc]
      omega
    · simp only [collectAux, List.length_append, List.length_singleton, if_neg hc]
      exact ih (acc ++ [b])
        (by simp only [List.length_append, List.length_singleton]; omega)

/-- C8 counterexample: over an engine stream of 150 batches the adapter
accumulates 101 batches, exceeding 100 (push happens before the
`batches.length > 100` check; the repository's own stream-query test
asserts a batch count of 101). -/
theorem collectBatches_exceeds_100_counterexample :
    (collectBatches (List.replicate 150 0)).length = 101 ∧
      ¬((collectBatches (List.replicate 150 0)).length ≤ 100) := by
  constructor <;> decide

/-- C8 amended: the adapter accumulates at most 101 batches, for every
query and every stream of engine batches (it stops as soon as the count
exceeds 100, which happens after the 101st push). -/
theorem collectBatches_le_101 {β : Type} (stream : List β) :
    (collectBatches stream).length ≤ 101 :=
  collectAux_length_le stream [] (by simp)

/-! ## Streaming engine: step lemmas -/

/-- Step lemma: an empty page terminates the loop without yielding. -/
theorem streamRun_stop {α : Type} (rows : List α) (bs : Nat) (m : Option Nat)
    (bn tf : Nat) (h1 : (rows.take bs).length = 0) :
    streamRun rows bs m bn tf = ([], 1) := by
  rw [streamRun.eq_def]
  simp only [dif_pos h1]

/-- Step lemma: a page that leaves `hasMore` true and has not reached the
cap yields its batch and continues at the advanced offset. -/
theorem streamRun_cont {α : Type} (rows : List α) (bs : Nat) (m : Option Nat)
    (bn tf : Nat) (h1 : ¬(rows.take bs).length = 0)
    (h2 : hasMoreCalc (rows.take bs).length bs m (tf + (rows.take bs).length) = true ∧
      ¬(capActive m = true ∧ m.getD 0 ≤ tf + (rows.take bs).length)) :
    streamRun rows bs m bn tf =
      (⟨rows.take bs, bn + 1, bn + 2, true⟩ ::
          (streamRun (rows.drop bs) bs m (bn + 1) (tf + (rows.take bs).length)).1,
        (streamRun (rows.drop bs) bs m (bn + 1) (tf + (rows.take bs).length)).2 + 1) := by
  conv_lhs => rw [streamRun.eq_def]
  simp only [dif_neg h1, if_pos h2]

/-- Step lemma: a non-empty page whose batch fails the continuation test
is yielded as the final batch. -/
theorem streamRun_last {α : Type} (rows : List α) (bs : Nat) (m : Option Nat)
    (bn tf : Nat) (h1 : ¬(rows.take bs).length = 0)
    (h2 : ¬(hasMoreCalc (rows.take bs).length bs m (tf + (rows.take bs).length) = true ∧
      ¬(capActive m = true ∧ m.getD 0 ≤ tf + (rows.take bs).length))) :
    streamRun rows bs m bn tf =
      ([⟨rows.take bs, bn + 1,
          if hasMoreCalc (rows.take bs).length bs m (tf + (rows.take bs).length) = true
          then bn + 2 else bn + 1,
          hasMoreCalc (rows.take bs).length bs m (tf + (rows.take bs).length)⟩], 1) := by
  conv_lhs => rw [streamRun.eq_def]
  simp only [dif_neg h1, if_neg h2]

/-! ## Streaming engine: concrete evaluations -/

/-- Helper: taking `k ≤ n` rows from a replicated result set. -/
theorem take_repl (n k : Nat) (h : k ≤ n) :
    (List.replicate n ()).take k = List.replicate k () := by
  rw [List.take_replicate]
  congr 1
  omega

/-- Helper: advancing the offset over a replicated result set. -/
theorem drop_repl (n k : Nat) :
    (List.replicate n ()).drop k = List.replicate (n - k) () := by
  rw [List.drop_replicate]

/-- Evaluation of the engine on a 10000-row result set with
`batchSize = 1000` and `maxRows = 1500`: two pages are fetched, both full,
and the loop stops after the second. -/
theorem streamRun_eval_cap :
    streamRun (List.replicate 10000 ()) 1000 (some 1500) 0 0 =
      ([⟨List.replicate 1000 (), 1, 2, true⟩,
        ⟨List.replicate 1000 (), 2, 2, false⟩], 2) := by
  have t1 : (List.replicate 10000 ()).take 1000 = List.replicate 1000 () :=
    take_repl _ _ (by norm_num)
  have d1 : (List.replicate 10000 ()).drop 1000 = List.replicate 9000 () := by
    rw [drop_repl]
  have t2 : (List.replicate 9000 ()).take 1000 = List.replicate 1000 () :=
    take_repl _ _ (by norm_num)
  have h1 : ¬((List.replicate 10000 ()).take 1000).length = 0 := by
    rw [t1, List.length_replicate]
    norm_num
  have h2 : hasMoreCalc ((List.replicate 10000 ()).take 1000).length 1000 (some 1500)
      (0 + ((List.replicate 10000 ()).take 1000).length) = true ∧
      ¬(capActive (some 1500) = true ∧
        (some 1500 : Option Nat).getD 0 ≤ 0 + ((List.replicate 10000 ()).take 1000).length) := by
    rw [t1, List.length_replicate]
    exact ⟨by decide, by decide⟩
  rw [streamRun_cont _ _ _ _ _ h1 h2, t1, List.length_replicate]
  have h1b : ¬((List.replicate 9000 ()).take 1000).length = 0 := by
    rw [t2, List.length_replicate]
    norm_num
  have h2b : ¬(hasMoreCalc ((List.replicate 9000 ()).take 1000).length 1000 (some 1500)
      ((0 + 1000) + ((List.replicate 9000 ()).take 1000).length) = true ∧
      ¬(capActive (some 1500) = true ∧
        (some 1500 : Option Nat).getD 0 ≤ (0 + 1000) + ((List.replicate 9000 ()).take 1000).length)) := by
    rw [t2, List.length_replicate]
    decide
  rw [d1, streamRun_last _ _ _ _ _ h1b h2b, t2, List.length_replicate]
  norm_num [hasMoreCalc, capActive]

/-- Evaluation of the engine on a 3-row result set with `batchSize = 2`
and no cap: a full batch with `hasMore = true`, then a short final batch. -/
theorem streamRun_eval_three :
    streamRun (List.replicate 3 ()) 2 none 0 0 =
      ([⟨List.replicate 2 (), 1, 2, true⟩,
        ⟨List.replicate 1 (), 2, 2, false⟩], 2) := by
  have t1 : (List.replicate 3 ()).take 2 = List.replicate 2 () :=
    take_repl _ _ (by norm_num)
  have d1 : (List.replicate 3 ()).drop 2 = List.replicate 1 () := by
    rw [drop_repl]
  have t2 : (List.replicate 1 ()).take 2 = List.replicate 1 () := by
    rw [List.take_replicate]
    norm_num
  have h1 : ¬((List.replicate 3 ()).take 2).length = 0 := by
    rw [t1, List.length_replicate]
    norm_num
  have h2 : hasMoreCalc ((List.replicate 3 ()).take 2).length 2 none
      (0 + ((List.replicate 3 ()).take 2).length) = true ∧
      ¬(capActive none = true ∧
        (none : Option Nat).getD 0 ≤ 0 + ((List.replicate 3 ()).take 2).length) := by
    rw [t1, List.length_replicate]
    exact ⟨by decide, by decide⟩
  rw [streamRun_cont _ _ _ _ _ h1 h2, t1, List.length_replicate]
  have h1b : ¬((List.replicate 1 ()).take 2).length = 0 := by
    rw [t2, List.length_replicate]
    norm_num
  have h2b : ¬(hasMoreCalc ((List.replicate 1 ()).take 2).length 2 none
      ((0 + 2) + ((List.replicate 1 ()).take 2).length) = true ∧
      ¬(capActive none = true ∧
        (none : Option Nat).getD 0 ≤ (0 + 2) + ((List.replicate 1 ()).take 2).length)) := by
    rw [t2, List.length_replicate]
    decide
  rw [d1, streamRun_last _ _ _ _ _ h1b h2b, t2, List.length_replicate]
  norm_num [hasMoreCalc, capActive]

/-- Evaluation of the engine on a result set of exactly `batchSize` rows
with no cap: the single (final) batch still carries `hasMore = true` and
`totalBatches = 2`, and a second, empty page is probed. -/
theorem streamRun_eval_exact :
    streamRun (List.replicate 2 ()) 2 none 0 0 =
      ([⟨List.replicate 2 (), 1, 2, true⟩], 2) := by
  have t1 : (List.replicate 2 ()).take 2 = List.replicate 2 () :=
    take_repl _ _ (by norm_num)
  have d1 : (List.replicate 2 ()).drop 2 = List.replicate 0 () := by
    rw [drop_repl]
  have h1 : ¬((List.replicate 2 ()).take 2).length = 0 := by
    rw [t1, List.length_replicate]
    norm_num
  have h2 : hasMoreCalc ((List.replicate 2 ()).take 2).length 2 none
      (0 + ((List.replicate 2 ()).take 2).length) = true ∧
      ¬(capActive none = true ∧
        (none : Option Nat).getD 0 ≤ 0 + ((List.replicate 2 ()).take 2).length) := by
    rw [t1, List.length_replicate]
    exact ⟨by decide, by decide⟩
  rw [streamRun_cont _ _ _ _ _ h1 h2, t1, List.length_replicate, d1]
  rw [streamRun_stop _ _ _ _ _ (by decide)]

/-! ## Streaming engine: invariants -/

/-- Helper: every yielded batch satisfies the source's `totalBatches`
computation `hasMore ? batchNumber + 1 : batchNumber`. -/
theorem streamRun_totalBatches {α : Type} (rows : List α) (bs : Nat) (m : Option Nat)
    (bn tf : Nat) :
    ∀ b ∈ (streamRun rows bs m bn tf).1,
      b.totalBatches = if b.hasMore then b.batchNumber + 1 else b.batchNumber := by
  induction rows, bs, m, bn, tf using streamRun.induct with
  | case1 rows bs m bn tf h1 =>
    rw [streamRun_stop _ _ _ _ _ h1]
    intro b hb
    simp at hb
  | case2 rows bs m bn tf h1 h2 ih =>
    rw [streamRun_cont _ _ _ _ _ h1 h2]
    intro b hb
    rcases List.mem_cons.mp hb with hb | hb
    · subst hb
      simp
    · exact ih b hb
  | case3 rows bs m bn tf h1 h2 =>
    rw [streamRun_last _ _ _ _ _ h1 h2]
    intro b hb
    rcases List.mem_cons.mp hb with hb | hb
    · subst hb
      cases hcase : hasMoreCalc (rows.take bs).length bs m (tf + (rows.take bs).length) <;>
        simp [hcase]
    · simp at hb

/-- Helper: batch numbers of a run are consecutive starting after the
entry counter. -/
theorem streamRun_map_batchNumber {α : Type} (rows : List α) (bs : Nat) (m : Option Nat)
    (bn tf : Nat) :
    ((streamRun rows bs m bn tf).1).map (fun b => b.batchNumber) =
      List.range' (bn + 1) ((streamRun rows bs m bn tf).1).length := by
  induction rows, bs, m, bn, tf using streamRun.induct with
  | case1 rows bs m bn tf h1 =>
    rw [streamRun_stop _ _ _ _ _ h1]
    simp
  | case2 rows bs m bn tf h1 h2 ih =>
    rw [streamRun_cont _ _ _ _ _ h1 h2]
    simp only [List.map_cons, List.length_cons, List.range'_succ, List.cons.injEq]
    exact ⟨trivial, ih⟩
  | case3 rows bs m bn tf h1 h2 =>
    rw [streamRun_last _ _ _ _ _ h1 h2]
    simp [List.range'_succ]

/-- Helper: reading entries off a list whose image is an arithmetic
range. -/
theorem get_map_range' {α : Type} (f : α → Nat) :
    ∀ (l : List α) (s : Nat), l.map f = List.range' s l.length →
      ∀ i (h : i < l.length), f (l.get ⟨i, h⟩) = s + i := by
  intro l
  induction l with
  | nil =>
    intro s hm i h
    simp at h
  | cons a t ih =>
    intro s hm i h
    simp only [List.map_cons, List.length_cons, List.range'_succ] at hm
    injection hm with h1 h2
    cases i with
    | zero => simpa using h1
    | succ j =>
      have hj : j < t.length := by simpa using h
      have hr := ih (s + 1) h2 j hj
      show f (t.get ⟨j, hj⟩) = s + (j + 1)
      omega

/-- C6: within a single `streamQuery` invocation the k-th yielded batch
(0-based index k) carries `batchNumber = k + 1`: the sequence of batch
numbers is 1, 2, 3, … strictly increasing with no gaps. -/
theorem streamQuery_batchNumber_sequence {α : Type} (rows : List α) (bs : Nat)
    (m : Option Nat) (k : Nat) (h : k < (streamQueryBatches rows bs m).length) :
    ((streamQueryBatches rows bs m).get ⟨k, h⟩).batchNumber = k + 1 := by
  have hr := get_map_range' (fun b => b.batchNumber)
    (streamQueryBatches rows bs m) 1 (streamRun_map_batchNumber rows bs m 0 0) k h
  omega

/-- Witness for C6: the second batch of a 3-row stream with batch size 2
has `batchNumber = 2`. -/
theorem streamQuery_batchNumber_sequence_witness :
    ∃ h : 1 < (streamQueryBatches (List.replicate 3 ()) 2 none).length,
      ((streamQueryBatches (List.replicate 3 ()) 2 none).get ⟨1, h⟩).batchNumber = 1 + 1 := by
  have hlen : (streamQueryBatches (List.replicate 3 ()) 2 none).length = 2 := by
    show ((streamRun (List.replicate 3 ()) 2 none 0 0).1).length = 2
    rw [streamRun_eval_three]
    rfl
  have h : 1 < (streamQueryBatches (List.replicate 3 ()) 2 none).length := by omega
  exact ⟨h, streamQuery_batchNumber_sequence (List.replicate 3 ()) 2 none 1 h⟩

/-- C5 counterexample: over a result set of exactly `batchSize` rows the
stream yields a single batch, which is therefore the final batch of the
sequence, yet it carries `totalBatches = 2 = batchNumber + 1` (and
`hasMore = true`): the actually-final batch does not carry
`totalBatches = batchNumber` as the claim requires. -/
theorem streamQuery_totalBatches_final_counterexample :
    streamQueryBatches (List.replicate 2 ()) 2 none =
        [⟨List.replicate 2 (), 1, 2, true⟩] ∧
      ¬((⟨List.replicate 2 (), 1, 2, true⟩ : StreamQueryResult Unit).totalBatches =
        (⟨List.replicate 2 (), 1, 2, true⟩ : StreamQueryResult Unit).batchNumber) := by
  constructor
  · show (streamRun (List.replicate 2 ()) 2 none 0 0).1 = _
    rw [streamRun_eval_exact]
  · decide

/-- C5 amended: `totalBatches` equals `batchNumber + 1` when the batch has
`hasMore = true` and `batchNumber` otherwise. This coincides with the
claim except when the final batch still has `hasMore = true`, which
happens when the result size is an exact multiple of `batchSize` (and the
cap is not reached): then the actually-final batch carries
`totalBatches = batchNumber + 1`. -/
theorem streamQuery_totalBatches_amended {α : Type} (rows : List α) (bs : Nat)
    (m : Option Nat) (b : StreamQueryResult α)
    (hb : b ∈ streamQueryBatches rows bs m) :
    b.totalBatches = if b.hasMore then b.batchNumber + 1 else b.batchNumber :=
  streamRun_totalBatches rows bs m 0 0 b hb

/-- Witness for C5 amended at a 3-row stream with batch size 2. -/
theorem streamQuery_totalBatches_amended_witness :
    (⟨List.replicate 2 (), 1, 2, true⟩ : StreamQueryResult Unit) ∈
        streamQueryBatches (List.replicate 3 ()) 2 none ∧
      (⟨List.replicate 2 (), 1, 2, true⟩ : StreamQueryResult Unit).totalBatches =
        if (⟨List.replicate 2 (), 1, 2, true⟩ : StreamQueryResult Unit).hasMore
        then (⟨List.replicate 2 (), 1, 2, true⟩ : StreamQueryResult Unit).batchNumber + 1
        else (⟨List.replicate 2 (), 1, 2, true⟩ : StreamQueryResult Unit).batchNumber := by
  have hmem : (⟨List.replicate 2 (), 1, 2, true⟩ : StreamQueryResult Unit) ∈
      streamQueryBatches (List.replicate 3 ()) 2 none := by
    have he : streamQueryBatches (List.replicate 3 ()) 2 none =
        [⟨List.replicate 2 (), 1, 2, true⟩, ⟨List.replicate 1 (), 2, 2, false⟩] := by
      show (streamRun (List.replicate 3 ()) 2 none 0 0).1 = _
      rw [streamRun_eval_three]
    rw [he]
    exact List.mem_cons_self _ _
  exact ⟨hmem, streamQuery_totalBatches_amended (List.replicate 3 ()) 2 none _ hmem⟩

/-- Helper: the `hasMore` invariant over a run with arbitrary entry
counters: any yielded batch with `hasMore = true` is a full page, and when
the cap is active the rows fetched up to and including that batch stay
strictly below the cap. -/
theorem streamRun_hasMore_inv {α : Type} (rows : List α) (bs : Nat) (m : Option Nat)
    (bn tf : Nat) :
    ∀ pre b post, (streamRun rows bs m bn tf).1 = pre ++ b :: post →
      b.hasMore = true →
      b.batch.length = bs ∧
        (capActive m = false ∨
          tf + ((pre.map fun x => x.batch.length).sum + b.batch.length) < m.getD 0) := by
  induction rows, bs, m, bn, tf using streamRun.induct with
  | case1 rows bs m bn tf h1 =>
    intro pre b post hsplit
    rw [streamRun_stop _ _ _ _ _ h1] at hsplit
    cases pre <;> simp at hsplit
  | case2 rows bs m bn tf h1 h2 ih =>
    intro pre b post hsplit hhm
    rw [streamRun_cont _ _ _ _ _ h1 h2] at hsplit
    obtain ⟨hA, hB⟩ := h2
    rw [hasMoreCalc, Bool.and_eq_true] at hA
    obtain ⟨hfull, hbound⟩ := hA
    have hfull2 : (rows.take bs).length = bs := by simpa using hfull
    have hbound2 : capActive m = false ∨ tf + (rows.take bs).length < m.getD 0 := by
      simpa using hbound
    cases pre with
    | nil =>
      simp only [List.nil_append] at hsplit
      injection hsplit with hb htail
      subst hb
      refine ⟨hfull2, ?_⟩
      rcases hbound2 with hc | hc
      · left
        exact hc
      · right
        simpa [hfull2] using hc
    | cons p pre2 =>
      simp only [List.cons_append] at hsplit
      injection hsplit with hp htail
      have hrec := ih pre2 b post htail hhm
      refine ⟨hrec.1, ?_⟩
      rcases hrec.2 with hc | hc
      · left
        exact hc
      · right
        have hplen : p.batch.length = (rows.take bs).length := by
          rw [← hp]
        simp only [List.map_cons, List.sum_cons, hplen]
        omega
  | case3 rows bs m bn tf h1 h2 =>
    intro pre b post hsplit hhm
    rw [streamRun_last _ _ _ _ _ h1 h2] at hsplit
    cases pre with
    | nil =>
      simp only [List.nil_append] at hsplit
      injection hsplit with hb htail
      subst hb
      have hA : hasMoreCalc (rows.take bs).length bs m (tf + (rows.take bs).length) = true := hhm
      rw [hasMoreCalc, Bool.and_eq_true] at hA
      obtain ⟨hfull, hbound⟩ := hA
      have hfull2 : (rows.take bs).length = bs := by simpa using hfull
      have hbound2 : capActive m = false ∨ tf + (rows.take bs).length < m.getD 0 := by
        simpa using hbound
      refine ⟨hfull2, ?_⟩
      rcases hbound2 with hc | hc
      · left
        exact hc
      · right
        simpa [hfull2] using hc
    | cons p pre2 =>
      simp only [List.cons_append] at hsplit
      injection hsplit with hp htail
      cases pre2 <;> simp at htail

/-- C4: for every batch yielded by `streamQuery`, `hasMore = true` only if
the page just fetched returned exactly `batchSize` rows and (no cap is
active or the running total of rows fetched so far — the batches up to and
including this one — is strictly below the cap). `capActive` reflects the
source's JavaScript truthiness: an absent cap (and the impossible-at-tool
level `maxRows = 0`) means no cap. -/
theorem streamQuery_hasMore_invariant {α : Type} (rows : List α) (bs : Nat)
    (m : Option Nat) (pre : List (StreamQueryResult α)) (b : StreamQueryResult α)
    (post : List (StreamQueryResult α))
    (hsplit : streamQueryBatches rows bs m = pre ++ b :: post)
    (hhm : b.hasMore = true) :
    b.batch.length = bs ∧
      (capActive m = false ∨
        (pre.map fun x => x.batch.length).sum + b.batch.length < m.getD 0) := by
  have := streamRun_hasMore_inv rows bs m 0 0 pre b post hsplit hhm
  simpa using this

/-- Witness for C4: the first batch of the capped 10000-row stream has
`hasMore = true`, a full 1000-row page, and 1000 < 1500 fetched so far. -/
theorem streamQuery_hasMore_invariant_witness :
    (streamQueryBatches (List.replicate 10000 ()) 1000 (some 1500) =
        [] ++ (⟨List.replicate 1000 (), 1, 2, true⟩ : StreamQueryResult Unit) ::
          [⟨List.replicate 1000 (), 2, 2, false⟩] ∧
      (⟨List.replicate 1000 (), 1, 2, true⟩ : StreamQueryResult Unit).hasMore = true) ∧
      ((⟨List.replicate 1000 (), 1, 2, true⟩ : StreamQueryResult Unit).batch.length = 1000 ∧
        (capActive (some 1500) = false ∨
          (([] : List (StreamQueryResult Unit)).map fun x => x.batch.length).sum +
            (⟨List.replicate 1000 (), 1, 2, true⟩ : StreamQueryResult Unit).batch.length <
              (some 1500 : Option Nat).getD 0)) := by
  have hsplit : streamQueryBatches (List.replicate 10000 ()) 1000 (some 1500) =
      [] ++ (⟨List.replicate 1000 (), 1, 2, true⟩ : StreamQueryResult Unit) ::
        [⟨List.replicate 1000 (), 2, 2, false⟩] := by
    rw [streamQueryBatches, streamQuery, streamRun_eval_cap, List.nil_append]
  exact ⟨⟨hsplit, rfl⟩,
    streamQuery_hasMore_invariant (List.replicate 10000 ()) 1000 (some 1500) [] _ _ hsplit rfl⟩

/-- C3 counterexample: with `maxRows = 1500`, `batchSize = 1000` over a
10000-row result set the engine yields two batches of 1000 rows each —
2000 rows are fetched, exceeding the cap — not 1000 + 500 rows as the
claim states (the source never shrinks the `LIMIT` to the remaining
cap). -/
theorem streamQuery_row_cap_counterexample :
    ((streamQueryBatches (List.replicate 10000 ()) 1000 (some 1500)).map
        (fun b => b.batch.length)) = [1000, 1000] ∧
      ¬(((streamQueryBatches (List.replicate 10000 ()) 1000 (some 1500)).map
          (fun b => b.batch.length)) = [1000, 500]) ∧
      (((streamQueryBatches (List.replicate 10000 ()) 1000 (some 1500)).map
          (fun b => b.batch.length)).sum = 2000 ∧
        ¬(((streamQueryBatches (List.replicate 10000 ()) 1000 (some 1500)).map
            (fun b => b.batch.length)).sum ≤ 1500)) := by
  have he : streamQueryBatches (List.replicate 10000 ()) 1000 (some 1500) =
      [⟨List.replicate 1000 (), 1, 2, true⟩, ⟨List.replicate 1000 (), 2, 2, false⟩] := by
    rw [streamQueryBatches, streamQuery, streamRun_eval_cap]
  rw [he]
  norm_num

/-- C3 amended: with `maxRows = 1500`, `batchSize = 1000` over a 10000-row
result set the engine yields exactly 2 batches and stops even though more
rows exist, with the second batch's `hasMore = false`; but both batches
are full 1000-row pages (the cap ends pagination once the running total
reaches it, without trimming the final page, so up to `batchSize - 1` rows
beyond the cap are fetched). -/
theorem streamQuery_row_cap_amended :
    (streamQueryBatches (List.replicate 10000 ()) 1000 (some 1500)).length = 2 ∧
      ((streamQueryBatches (List.replicate 10000 ()) 1000 (some 1500)).map
        (fun b => b.batch.length)) = [1000, 1000] ∧
      ((streamQueryBatches (List.replicate 10000 ()) 1000 (some 1500)).map
        (fun b => b.hasMore)) = [true, false] := by
  have he : streamQueryBatches (List.replicate 10000 ()) 1000 (some 1500) =
      [⟨List.replicate 1000 (), 1, 2, true⟩, ⟨List.replicate 1000 (), 2, 2, false⟩] := by
    rw [streamQueryBatches, streamQuery, streamRun_eval_cap]
  rw [he]
  norm_num

/-- Helper: with an active cap, the number of pages fetched from entry
state `tf < cap` is bounded by `ceil((cap - tf) / batchSize)`. -/
theorem streamRun_pages_le {α : Type} (rows : List α) (bs : Nat) (m : Option Nat)
    (bn tf : Nat) :
    0 < bs → tf < m.getD 0 →
      (streamRun rows bs m bn tf).2 ≤ (m.getD 0 - tf + bs - 1) / bs := by
  induction rows, bs, m, bn, tf using streamRun.induct with
  | case1 rows bs m bn tf h1 =>
    intro hbs htf
    rw [streamRun_stop _ _ _ _ _ h1]
    show 1 ≤ _
    rw [Nat.le_div_iff_mul_le hbs]
    omega
  | case2 rows bs m bn tf h1 h2 ih =>
    intro hbs htf
    rw [streamRun_cont _ _ _ _ _ h1 h2]
    obtain ⟨hA, hB⟩ := h2
    rw [hasMoreCalc, Bool.and_eq_true] at hA
    obtain ⟨hfull, hbound⟩ := hA
    have hfull2 : (rows.take bs).length = bs := by simpa using hfull
    have hcap : capActive m = true := by
      cases m with
      | none => simp at htf
      | some k =>
        have hk : k ≠ 0 := by
          simp only [Option.getD] at htf
          omega
        simp [capActive, hk]
    have htf2 : tf + (rows.take bs).length < m.getD 0 := by
      rcases (by simpa using hbound :
          capActive m = false ∨ tf + (rows.take bs).length < m.getD 0) with hc | hc
      · rw [hcap] at hc
        exact absurd hc (by simp)
      · exact hc
    have hih := ih hbs htf2
    rw [hfull2] at hih htf2
    have hkey : (m.getD 0 - tf + bs - 1) / bs = (m.getD 0 - tf - 1) / bs + 1 := by
      have harith : m.getD 0 - tf + bs - 1 = (m.getD 0 - tf - 1) + bs := by omega
      rw [harith, Nat.add_div_right _ hbs]
    have hkey2 : m.getD 0 - (tf + bs) + bs - 1 = m.getD 0 - tf - 1 := by omega
    rw [hkey2] at hih
    show (streamRun (rows.drop bs) bs m (bn + 1) (tf + (rows.take bs).length)).2 + 1 ≤ _
    rw [hfull2, hkey]
    omega
  | case3 rows bs m bn tf h1 h2 =>
    intro hbs htf
    rw [streamRun_last _ _ _ _ _ h1 h2]
    show 1 ≤ _
    rw [Nat.le_div_iff_mul_le hbs]
    omega

/-- C9: the streaming sequence is intrinsically finite over a finite
result set (the embedding is a total function into a list); with a cap
`maxRows = m ≥ 1` the number of pages fetched (loop iterations) is at
most `ceil(m / batchSize) = (m + batchSize - 1) / batchSize`; and an empty
result set terminates the sequence immediately, yielding no batch. -/
theorem streamQuery_termination_bound {α : Type} (rows : List α) (bs mval : Nat)
    (mr : Option Nat) (hbs : 1 ≤ bs) (hm : 1 ≤ mval) :
    streamQueryPages rows bs (some mval) ≤ (mval + bs - 1) / bs ∧
      streamQueryBatches ([] : List α) bs mr = [] := by
  constructor
  · have h := streamRun_pages_le rows bs (some mval) 0 0 hbs (by simpa using hm)
    rw [streamQueryPages, streamQuery]
    simpa using h
  · rw [streamQueryBatches, streamQuery, streamRun_stop _ _ _ _ _ (by simp)]

/-- Witness for C9 at `batchSize = 1000`, `maxRows = 1500` over a
10000-row result set: at most 2 pages are fetched. -/
theorem streamQuery_termination_bound_witness :
    (1 ≤ 1000 ∧ 1 ≤ 1500) ∧
      (streamQueryPages (List.replicate 10000 ()) 1000 (some 1500) ≤
          (1500 + 1000 - 1) / 1000 ∧
        streamQueryBatches ([] : List Unit) 1000 none = []) :=
  ⟨⟨by decide, by decide⟩,
    streamQuery_termination_bound (List.replicate 10000 ()) 1000 1500 none
      (by decide) (by decide)⟩

end VerticaMCP
